import Mathlib

/-!
# Verification of the geographic-name cleaning core (`app.py`)

Shallow embedding of the normalization / fuzzy-correction engine:

* `normalize`            — `app.py` lines 43–48 (lower, strip, drop non-word
  non-space characters).  Cell values are `Option String`: `none` models a
  missing value (`pd.isna`), `some s` models a scalar whose Python string
  representation is `s`.  Character classes (`str.lower`, `str.strip`,
  regex `\w`/`\s`) are embedded at ASCII scope, which covers every string
  the program's dictionaries and the spec mention.
* `district_renames`, `state_corrections`, `district_map`, `state_map`
  — lines 21–34 and 50–51.  A Python dict is embedded as an association
  list in insertion order; lookup is `List.lookup`.
* `fuzzy_correct`        — lines 53–60.  `difflib.get_close_matches(key,
  keys, n=1, cutoff)` keeps the keys whose Ratcliff/Obershelp ratio to
  `key` is at least `cutoff` and returns the maximum of the pairs
  `(ratio, key)` in lexicographic order (`heapq.nlargest(1, …)` is
  `max`), so ties on the ratio go to the lexicographically largest
  string.  The ratio is `2*M/T` where `M` is the total size of the
  matching blocks computed by `SequenceMatcher` (without the autojunk
  heuristic, which only activates on strings of length ≥ 200) and `T`
  the sum of the lengths; it is embedded in `ℚ`, exact where float
  arithmetic on these small fractions is exact.  A failed dict indexing
  (Python `KeyError`) is an `Except.error`.
* `clean_file`           — lines 66–93.  The table is embedded in memory
  (`Table`); loading and serialization keep column order, row order and
  cell values, so the file on disk is represented by the table itself.
  `ValueError("State column not found")` / `ValueError("District column
  not found")` (the spec's `MissingColumnError`) are `Except.error` with
  the literal message.
-/

set_option maxRecDepth 100000

deriving instance DecidableEq for Except

namespace App

/-- ASCII scope of Python's whitespace class (`str.strip`, regex `\s`). -/
def isPySpace (c : Char) : Bool :=
  c = ' ' || c = '\t' || c = '\n' || c = '\r' || c = '\x0b' || c = '\x0c'

/-- ASCII scope of regex `\w`: letters, digits, underscore. -/
def isWordChar (c : Char) : Bool :=
  c.isAlphanum || c = '_'

/-- `str.lower` (ASCII scope). -/
def pyLower (s : String) : String :=
  ⟨s.data.map Char.toLower⟩

/-- `str.upper` (ASCII scope). -/
def pyUpper (s : String) : String :=
  ⟨s.data.map Char.toUpper⟩

/-- `str.strip()`: drop leading and trailing whitespace. -/
def pyStrip (s : String) : String :=
  ⟨((s.data.dropWhile isPySpace).reverse.dropWhile isPySpace).reverse⟩

/-- `re.sub(r"[^\w\s]", "", s)`: keep only word characters and whitespace. -/
def pyKeepWordAndSpace (s : String) : String :=
  ⟨s.data.filter (fun c => isWordChar c || isPySpace c)⟩

/-- `normalize` applied to a value already known to be a string
(`str(text).lower().strip()` then `re.sub(r"[^\w\s]", "", text)`). -/
def normalizeStr (s : String) : String :=
  pyKeepWordAndSpace (pyStrip (pyLower s))

/-- `normalize` (app.py 43–48): `None`/NaN propagates, otherwise the
string pipeline runs. -/
def normalize : Option String → Option String
  | none => none
  | some s => some (normalizeStr s)

/-- `district_renames` (app.py 21–27), in insertion order. -/
def district_renames : List (String × String) :=
  [("Cuddapah", "Ysr Kadapa"),
   ("Allahabad", "Prayagraj"),
   ("Faizabad", "Ayodhya"),
   ("Bardhaman", "Purba Bardhaman"),
   ("Hugli", "Hooghly")]

/-- `state_corrections` (app.py 29–34), in insertion order. -/
def state_corrections : List (String × String) :=
  [("WESTBENGAL", "West Bengal"),
   ("Orissa", "Odisha"),
   ("andhra pradesh", "Andhra Pradesh"),
   ("Uttaranchal", "Uttarakhand")]

/-- `district_map = {normalize(k): v for k, v in district_renames.items()}`
(app.py 50; the keys are strings, so `normalize` is `normalizeStr`). -/
def district_map : List (String × String) :=
  district_renames.map (fun p => (normalizeStr p.1, p.2))

/-- `state_map` (app.py 51). -/
def state_map : List (String × String) :=
  state_corrections.map (fun p => (normalizeStr p.1, p.2))

/-- The default cutoff `0.85` of `fuzzy_correct`, exact in `ℚ`
(`17/20`; the lemma `cutoffDefault_eq` below identifies it with the
literal `0.85`). -/
def cutoffDefault : ℚ := ⟨17, 20, by decide, by decide⟩

/-- Length of the longest common prefix of two character lists. -/
def lcp : List Char → List Char → Nat
  | a :: as, b :: bs => if a = b then lcp as bs + 1 else 0
  | _, _ => 0

/-- Length of the longest matching block starting at `a[i]`, `b[j]`,
truncated to the windows `[i, ahi)` and `[j, bhi)`. -/
def extLen (a b : List Char) (i ahi j bhi : Nat) : Nat :=
  lcp ((a.drop i).take (ahi - i)) ((b.drop j).take (bhi - j))

/-- `SequenceMatcher.find_longest_match` on the windows `a[alo:ahi]`,
`b[blo:bhi]` (no junk, no autojunk): the longest matching block,
starting earliest in `a` and, among those, earliest in `b`; `(alo, blo,
0)` when the windows share nothing.  Returns `(i, j, size)`. -/
def findLongestMatch (a b : List Char) (alo ahi blo bhi : Nat) : Nat × Nat × Nat :=
  (List.range' alo (ahi - alo)).foldl
    (fun best i =>
      (List.range' blo (bhi - blo)).foldl
        (fun best j =>
          let k := extLen a b i ahi j bhi
          if best.2.2 < k then (i, j, k) else best)
        best)
    (alo, blo, 0)

/-- Total size of the matching blocks of `SequenceMatcher
.get_matching_blocks` restricted to the given windows: recursively take
the longest match and recurse left and right of it.  Each recursive call
strictly shrinks `(ahi - alo) + (bhi - blo)`, so any fuel of at least
`(ahi - alo) + (bhi - blo) + 1` computes the true total. -/
def matchTotalAux (a b : List Char) : Nat → Nat → Nat → Nat → Nat → Nat
  | 0, _, _, _, _ => 0
  | fuel + 1, alo, ahi, blo, bhi =>
    let t := findLongestMatch a b alo ahi blo bhi
    if t.2.2 = 0 then 0
    else
      matchTotalAux a b fuel alo t.1 blo t.2.1 + t.2.2 +
        matchTotalAux a b fuel (t.1 + t.2.2) ahi (t.2.1 + t.2.2) bhi

/-- Total matched characters between `a` and `b` (the `M` of
`SequenceMatcher.ratio`). -/
def matchTotal (a b : List Char) : Nat :=
  matchTotalAux a b (a.length + b.length + 1) 0 a.length 0 b.length

/-- `SequenceMatcher(None, a, b).ratio()` as an unreduced exact fraction
`(numerator, denominator)`: `(2*M, T)`, and `(1, 1)` on two empty
strings.  The denominator is always positive. -/
def ratioPair (a b : String) : Nat × Nat :=
  let T := a.data.length + b.data.length
  if T = 0 then (1, 1) else (2 * matchTotal a.data b.data, T)

/-- The same ratio as a rational number (used by the specifications). -/
def ratioQ (a b : String) : ℚ :=
  ((ratioPair a b).1 : ℚ) / ((ratioPair a b).2 : ℚ)

/-- `cutoff ≤ ratio`, by cross multiplication (denominators positive). -/
def cutoffLeRatio (c : ℚ) (p : Nat × Nat) : Bool :=
  c.num * (p.2 : Int) ≤ (p.1 : Int) * (c.den : Int)

/-- Strict comparison of two ratio fractions, by cross multiplication. -/
def ratioLtB (p q : Nat × Nat) : Bool :=
  p.1 * q.2 < q.1 * p.2

/-- Equality of two ratio fractions, by cross multiplication. -/
def ratioEqB (p q : Nat × Nat) : Bool :=
  p.1 * q.2 = q.1 * p.2

/-- Python's `<` on strings: lexicographic comparison of code points. -/
def strLtB : List Char → List Char → Bool
  | [], [] => false
  | [], _ :: _ => true
  | _ :: _, [] => false
  | a :: as, b :: bs => if a = b then strLtB as bs else a.toNat < b.toNat

/-- One step of `max` over the pairs `(ratio to word, key)` in
lexicographic order: replace the incumbent `best` by `x` exactly when
`x`'s pair is strictly greater. -/
def bestStep (word : String) (best : Option String) (x : String) : Option String :=
  match best with
  | none => some x
  | some b =>
    if ratioLtB (ratioPair b word) (ratioPair x word)
        || (ratioEqB (ratioPair b word) (ratioPair x word) && strLtB b.data x.data)
    then some x else some b

/-- `difflib.get_close_matches(word, keys, n=1, cutoff)`: among the keys
with ratio at least `cutoff`, the maximum of the pairs `(ratio, key)` in
lexicographic order (`heapq.nlargest(1, …)` = `max`, scanning the
candidates in key order, keeping the incumbent on an exact tie — ratios
compared exactly, as floats on these small fractions are exact enough to
order them). -/
def getCloseMatches1 (word : String) (keys : List String) (cutoff : ℚ) : Option String :=
  (keys.filter (fun x => cutoffLeRatio cutoff (ratioPair x word))).foldl (bestStep word) none

/-- `x` ranks strictly below `y` as an approximate match for `word`:
smaller similarity ratio, or an equal ratio and `x` lexicographically
smaller (the selection's tie-break). -/
def rankLt (word x y : String) : Prop :=
  ratioQ x word < ratioQ y word ∨
    (ratioQ x word = ratioQ y word ∧ strLtB x.data y.data = true)

/-- `m` is the single best approximate match for `key` among `keys` at
`cutoff`: a member scoring at least `cutoff`, with every other
qualifying candidate ranking strictly below it. -/
def IsBestMatch (cutoff : ℚ) (key : String) (keys : List String) (m : String) : Prop :=
  m ∈ keys ∧ cutoff ≤ ratioQ m key ∧
    ∀ x ∈ keys, cutoff ≤ ratioQ x key → rankLt key x m ∨ x = m

/-- `fuzzy_correct` (app.py 53–60).  `Except.error` models an uncaught
`KeyError` from `mapping[matches[0]]` (proved unreachable below). -/
def fuzzy_correct (value : Option String) (mapping : List (String × String))
    (cutoff : ℚ) : Except String (Option String) :=
  match value with
  | none => Except.ok none
  | some v =>
    let key := normalizeStr v
    match List.lookup key mapping with
    | some canon => Except.ok (some canon)
    | none =>
      match getCloseMatches1 key (mapping.map Prod.fst) cutoff with
      | some m =>
        match List.lookup m mapping with
        | some canon => Except.ok (some canon)
        | none => Except.error "KeyError"
      | none => Except.ok value

/-- An in-memory table: named columns and rows of cells (cells as in
`normalize`: `none` is a missing value). -/
structure Table where
  cols : List String
  rows : List (List (Option String))
deriving DecidableEq

/-- `needle` occurs as a contiguous substring of `hay` (Python's
`needle in hay`). -/
def containsSub (needle : List Char) : List Char → Bool
  | [] => needle.isEmpty
  | c :: rest => needle.isPrefixOf (c :: rest) || containsSub needle rest

/-- `sub in s` on strings. -/
def strContains (sub s : String) : Bool :=
  containsSub sub.data s.data

/-- `[c for c in df.columns if "state" in c.lower()]` (app.py 74). -/
def stateCols (cols : List String) : List String :=
  cols.filter (fun c => strContains "state" (pyLower c))

/-- `[c for c in df.columns if "district" in c.lower()]` (app.py 75). -/
def districtCols (cols : List String) : List String :=
  cols.filter (fun c => strContains "district" (pyLower c))

/-- Index of the located state column `state_cols[0]` (the first column
whose lower-cased name contains `"state"`); meaningful when
`stateCols cols ≠ []`. -/
def stateIdx (cols : List String) : Nat :=
  cols.findIdx (fun c => strContains "state" (pyLower c))

/-- Index of the located district column `district_cols[0]`. -/
def districtIdx (cols : List String) : Nat :=
  cols.findIdx (fun c => strContains "district" (pyLower c))

/-- Apply `f` to the cell at index `i` of a row, propagating its error;
out-of-range indices leave the row unchanged (a pandas row always has a
cell in every column, so `clean_file` never reaches that case). -/
def updateAt (f : Option String → Except String (Option String)) :
    Nat → List (Option String) → Except String (List (Option String))
  | _, [] => Except.ok []
  | 0, c :: rest => do
    let c' ← f c
    Except.ok (c' :: rest)
  | i + 1, c :: rest => do
    let rest' ← updateAt f i rest
    Except.ok (c :: rest')

/-- Element-wise effectful map (`Series.apply`): first error wins. -/
def mapExc (g : List (Option String) → Except String (List (Option String))) :
    List (List (Option String)) → Except String (List (List (Option String)))
  | [] => Except.ok []
  | r :: rs => do
    let r' ← g r
    let rs' ← mapExc g rs
    Except.ok (r' :: rs')

/-- `clean_file` (app.py 66–93) on the loaded table: locate the state
and district columns (raising in the source's order), rewrite the state
column with `state_map`, then the district column with `district_map`,
and return the table that is serialized. -/
def clean_file (df : Table) : Except String Table :=
  match stateCols df.cols, districtCols df.cols with
  | [], _ => Except.error "State column not found"
  | _ :: _, [] => Except.error "District column not found"
  | _ :: _, _ :: _ => do
    let rows1 ← mapExc (updateAt (fun x => fuzzy_correct x state_map cutoffDefault)
      (stateIdx df.cols)) df.rows
    let rows2 ← mapExc (updateAt (fun x => fuzzy_correct x district_map cutoffDefault)
      (districtIdx df.cols)) rows1
    Except.ok ⟨df.cols, rows2⟩

/-- Cell of `df` at row `r`, column `j` (`none` when out of range). -/
def cellAt (df : Table) (r j : Nat) : Option (Option String) :=
  (df.rows.get? r).bind (fun row => row.get? j)


/-! ## The lexicographic string order -/

theorem char_eq_of_toNat_eq {a b : Char} (h : a.toNat = b.toNat) : a = b :=
  Char.ext (UInt32.ext h)

theorem strLtB_irrefl (l : List Char) : strLtB l l = false := by
  induction l with
  | nil => rfl
  | cons c t ih => simpa [strLtB] using ih

theorem strLtB_trans : ∀ {a b c : List Char},
    strLtB a b = true → strLtB b c = true → strLtB a c = true
  | [], _ :: _, _ :: _, _, _ => rfl
  | [], [], _, h₁, _ => by simp [strLtB] at h₁
  | [], _ :: _, [], _, h₂ => by simp [strLtB] at h₂
  | _ :: _, [], _, h₁, _ => by simp [strLtB] at h₁
  | _ :: _, _ :: _, [], _, h₂ => by simp [strLtB] at h₂
  | x :: xs, y :: ys, z :: zs, h₁, h₂ => by
    simp only [strLtB] at h₁ h₂ ⊢
    by_cases hxy : x = y <;> by_cases hyz : y = z
    · subst hxy; subst hyz
      rw [if_pos rfl] at h₁ h₂ ⊢
      exact strLtB_trans h₁ h₂
    · subst hxy
      rw [if_neg hyz] at h₂
      rw [if_neg hyz]
      exact h₂
    · subst hyz
      rw [if_neg hxy] at h₁
      rw [if_neg hxy]
      exact h₁
    · rw [if_neg hxy] at h₁
      rw [if_neg hyz] at h₂
      rw [decide_eq_true_eq] at h₁ h₂
      have hlt : x.toNat < z.toNat := Nat.lt_trans h₁ h₂
      have hxz : x ≠ z := fun h => absurd (h ▸ hlt) (Nat.lt_irrefl _)
      rw [if_neg hxz, decide_eq_true_eq]
      exact hlt

theorem strLtB_antisymm : ∀ {a b : List Char},
    strLtB a b = false → strLtB b a = false → a = b
  | [], [], _, _ => rfl
  | [], _ :: _, h₁, _ => by simp [strLtB] at h₁
  | _ :: _, [], _, h₂ => by simp [strLtB] at h₂
  | x :: xs, y :: ys, h₁, h₂ => by
    by_cases hxy : x = y
    · subst hxy
      simp only [strLtB, if_pos rfl] at h₁ h₂
      rw [strLtB_antisymm h₁ h₂]
    · have hyx : y ≠ x := fun h => hxy h.symm
      simp only [strLtB, if_neg hxy, if_neg hyx,
        decide_eq_false_iff_not, Nat.not_lt] at h₁ h₂
      exact absurd (char_eq_of_toNat_eq (Nat.le_antisymm h₂ h₁)) hxy

theorem string_eq_of_data_eq {x y : String} (h : x.data = y.data) : x = y :=
  congrArg String.mk h

/-! ## The exact fraction comparators agree with the rational ratio -/

theorem ratioPair_den_pos (a b : String) : 0 < (ratioPair a b).2 := by
  unfold ratioPair
  dsimp only
  split
  · exact Nat.one_pos
  · rename_i h
    exact Nat.pos_of_ne_zero h

theorem natCast_div_eq_divInt (n d : Nat) :
    ((n : ℚ)) / ((d : ℚ)) = Rat.divInt (n : ℤ) (d : ℤ) := by
  rw [Rat.divInt_eq_div]
  norm_num

theorem cutoffLeRatio_iff (c : ℚ) (x w : String) :
    cutoffLeRatio c (ratioPair x w) = true ↔ c ≤ ratioQ x w := by
  have hd : (0 : ℤ) < (((ratioPair x w).2 : Nat) : ℤ) := by
    exact_mod_cast ratioPair_den_pos x w
  have hc : (0 : ℤ) < ((c.den : Nat) : ℤ) := by exact_mod_cast c.pos
  unfold cutoffLeRatio
  rw [decide_eq_true_eq, ratioQ, natCast_div_eq_divInt]
  constructor
  · intro h
    calc c = Rat.divInt c.num (c.den : ℤ) := (Rat.num_divInt_den c).symm
    _ ≤ _ := (Rat.divInt_le_divInt hc hd).mpr h
  · intro h
    rw [← Rat.num_divInt_den c] at h
    exact (Rat.divInt_le_divInt hc hd).mp h

theorem ratioLtB_iff (x y w : String) :
    ratioLtB (ratioPair x w) (ratioPair y w) = true ↔ ratioQ x w < ratioQ y w := by
  have hx : (0 : ℚ) < ((ratioPair x w).2 : ℚ) := by exact_mod_cast ratioPair_den_pos x w
  have hy : (0 : ℚ) < ((ratioPair y w).2 : ℚ) := by exact_mod_cast ratioPair_den_pos y w
  unfold ratioLtB
  rw [decide_eq_true_eq, ratioQ, ratioQ, div_lt_div_iff₀ hx hy]
  constructor <;> intro h <;> exact_mod_cast h

theorem ratioEqB_iff (x y w : String) :
    ratioEqB (ratioPair x w) (ratioPair y w) = true ↔ ratioQ x w = ratioQ y w := by
  have hx : ((ratioPair x w).2 : ℚ) ≠ 0 := by
    have := ratioPair_den_pos x w
    positivity
  have hy : ((ratioPair y w).2 : ℚ) ≠ 0 := by
    have := ratioPair_den_pos y w
    positivity
  unfold ratioEqB
  rw [decide_eq_true_eq, ratioQ, ratioQ, div_eq_div_iff hx hy]
  constructor <;> intro h <;> exact_mod_cast h

/-! ## The selection ranking is a strict linear order -/

theorem rankLt_irrefl (w x : String) : ¬ rankLt w x x := by
  rintro (h | ⟨-, h⟩)
  · exact lt_irrefl _ h
  · rw [strLtB_irrefl] at h
    exact Bool.false_ne_true h

theorem rankLt_trans {w x y z : String} (h₁ : rankLt w x y) (h₂ : rankLt w y z) :
    rankLt w x z := by
  rcases h₁ with h₁ | ⟨e₁, s₁⟩ <;> rcases h₂ with h₂ | ⟨e₂, s₂⟩
  · exact Or.inl (lt_trans h₁ h₂)
  · exact Or.inl (e₂ ▸ h₁)
  · exact Or.inl (e₁ ▸ h₂)
  · exact Or.inr ⟨e₁.trans e₂, strLtB_trans s₁ s₂⟩

theorem rankLt_trichotomy (w x y : String) :
    rankLt w x y ∨ rankLt w y x ∨ x = y := by
  rcases lt_trichotomy (ratioQ x w) (ratioQ y w) with h | h | h
  · exact Or.inl (Or.inl h)
  · cases hxy : strLtB x.data y.data
    · cases hyx : strLtB y.data x.data
      · exact Or.inr (Or.inr (string_eq_of_data_eq (strLtB_antisymm hxy hyx)))
      · exact Or.inr (Or.inl (Or.inr ⟨h.symm, hyx⟩))
    · exact Or.inl (Or.inr ⟨h, hxy⟩)
  · exact Or.inr (Or.inl (Or.inl h))

theorem bestStep_cond_iff (w b x : String) :
    (ratioLtB (ratioPair b w) (ratioPair x w)
      || (ratioEqB (ratioPair b w) (ratioPair x w) && strLtB b.data x.data)) = true
    ↔ rankLt w b x := by
  rw [Bool.or_eq_true, Bool.and_eq_true, ratioLtB_iff, ratioEqB_iff, rankLt]

/-! ## The top-1 selection computes the ranking's maximum -/

theorem bestStep_isSome (w : String) (acc : Option String) (x : String) :
    (bestStep w acc x).isSome = true := by
  cases acc with
  | none => rfl
  | some b =>
    rw [bestStep]
    split <;> rfl

theorem foldl_bestStep_mem {w : String} :
    ∀ (l : List String) (acc : Option String) (m : String),
      l.foldl (bestStep w) acc = some m → acc = some m ∨ m ∈ l
  | [], _, _, h => Or.inl h
  | x :: t, acc, m, h => by
    rcases foldl_bestStep_mem t (bestStep w acc x) m h with hs | hm
    · cases acc with
      | none =>
        rw [bestStep] at hs
        cases Option.some_inj.mp hs
        exact Or.inr (List.mem_cons_self x t)
      | some b =>
        rw [bestStep] at hs
        split at hs
        · cases Option.some_inj.mp hs
          exact Or.inr (List.mem_cons_self x t)
        · exact Or.inl hs
    · exact Or.inr (List.mem_cons_of_mem x hm)

theorem foldl_bestStep_none {w : String} :
    ∀ (l : List String) (acc : Option String),
      l.foldl (bestStep w) acc = none → acc = none ∧ l = []
  | [], _, h => ⟨h, rfl⟩
  | x :: t, acc, h => by
    have := (foldl_bestStep_none t (bestStep w acc x) h).1
    have hsome := bestStep_isSome w acc x
    rw [this] at hsome
    simp at hsome

theorem foldl_bestStep_ub {w : String} :
    ∀ (l : List String) (acc : Option String) (m : String),
      l.foldl (bestStep w) acc = some m →
      (∀ x ∈ l, ¬ rankLt w m x) ∧ (∀ b, acc = some b → ¬ rankLt w m b)
  | [], acc, m, h =>
    ⟨fun x hx => absurd hx (List.not_mem_nil x),
     fun b hb => by
      have hm : acc = some m := h
      rw [hb] at hm
      rw [(Option.some_inj.mp hm).symm]
      exact rankLt_irrefl w b⟩
  | x :: t, acc, m, h => by
    obtain ⟨ht, hacc⟩ := foldl_bestStep_ub t (bestStep w acc x) m h
    cases acc with
    | none =>
      refine ⟨fun y hy => ?_, fun b hb => by simp at hb⟩
      rcases List.mem_cons.mp hy with rfl | hyt
      · exact hacc y rfl
      · exact ht y hyt
    | some b =>
      rw [bestStep] at hacc
      constructor
      · intro y hy
        rcases List.mem_cons.mp hy with rfl | hyt
        · split at hacc
          · exact hacc y rfl
          · rename_i hcond
            have hbx : ¬ rankLt w b y :=
              fun hr => absurd ((bestStep_cond_iff w b y).mpr hr) (by simpa using hcond)
            have hmb : ¬ rankLt w m b := hacc b rfl
            intro hmy
            rcases rankLt_trichotomy w y b with hyb | hby | rfl
            · exact hmb (rankLt_trans hmy hyb)
            · exact hbx hby
            · exact hmb hmy
        · exact ht y hyt
      · intro b' hb'
        obtain rfl : b = b' := Option.some_inj.mp hb'
        split at hacc
        · rename_i hcond
          have hbx : rankLt w b x := (bestStep_cond_iff w b x).mp (by simpa using hcond)
          have hmx : ¬ rankLt w m x := hacc x rfl
          intro hmb
          exact hmx (rankLt_trans hmb hbx)
        · exact hacc b rfl

theorem getCloseMatches1_none_iff (w : String) (keys : List String) (c : ℚ) :
    getCloseMatches1 w keys c = none ↔ ∀ x ∈ keys, ¬ (c ≤ ratioQ x w) := by
  unfold getCloseMatches1
  constructor
  · intro h x hx hcx
    have hfil := (foldl_bestStep_none _ none h).2
    have : x ∈ keys.filter (fun x => cutoffLeRatio c (ratioPair x w)) :=
      List.mem_filter.mpr ⟨hx, (cutoffLeRatio_iff c x w).mpr hcx⟩
    rw [hfil] at this
    exact absurd this (List.not_mem_nil x)
  · intro h
    have : keys.filter (fun x => cutoffLeRatio c (ratioPair x w)) = [] := by
      rw [List.filter_eq_nil_iff]
      intro a ha hc
      exact h a ha ((cutoffLeRatio_iff c a w).mp hc)
    rw [this]
    rfl

theorem getCloseMatches1_isBest {w : String} {keys : List String} {c : ℚ} {m : String}
    (h : getCloseMatches1 w keys c = some m) : IsBestMatch c w keys m := by
  unfold getCloseMatches1 at h
  have hmem : m ∈ keys.filter (fun x => cutoffLeRatio c (ratioPair x w)) := by
    rcases foldl_bestStep_mem _ none m h with hs | hm
    · exact absurd hs (by simp)
    · exact hm
  obtain ⟨hkeys, hcut⟩ := List.mem_filter.mp hmem
  refine ⟨hkeys, (cutoffLeRatio_iff c m w).mp hcut, fun x hx hcx => ?_⟩
  have hxf : x ∈ keys.filter (fun x => cutoffLeRatio c (ratioPair x w)) :=
    List.mem_filter.mpr ⟨hx, (cutoffLeRatio_iff c x w).mpr hcx⟩
  have hub := (foldl_bestStep_ub _ none m h).1 x hxf
  rcases rankLt_trichotomy w x m with hxm | hmx | rfl
  · exact Or.inl hxm
  · exact absurd hmx hub
  · exact Or.inr rfl

theorem getCloseMatches1_eq_some_of_isBest {w : String} {keys : List String} {c : ℚ}
    {m : String} (h : IsBestMatch c w keys m) : getCloseMatches1 w keys c = some m := by
  obtain ⟨hkeys, hcut, hbest⟩ := h
  cases hres : getCloseMatches1 w keys c with
  | none =>
    exact absurd hcut ((getCloseMatches1_none_iff w keys c).mp hres m hkeys)
  | some m' =>
    obtain ⟨hkeys', hcut', hbest'⟩ := getCloseMatches1_isBest hres
    rcases hbest m' hkeys' hcut' with hlt | rfl
    · rcases hbest' m hkeys hcut with hlt' | rfl
      · exact absurd (rankLt_trans hlt hlt') (rankLt_irrefl w m')
      · rfl
    · rfl

/-! ## Dictionary lookup of a member of the key list always succeeds -/

theorem lookup_isSome_of_mem_keys {m : String} :
    ∀ {l : List (String × String)}, m ∈ l.map Prod.fst →
      ∃ v, List.lookup m l = some v := by
  intro l
  induction l with
  | nil => intro h; simp at h
  | cons p t ih =>
    intro h
    by_cases hm : m = p.1
    · exact ⟨p.2, by simp [List.lookup, hm]⟩
    · have : m ∈ t.map Prod.fst := by
        rcases List.mem_map.mp h with ⟨q, hq, hqm⟩
        rcases List.mem_cons.mp hq with rfl | hqt
        · exact absurd hqm.symm hm
        · exact List.mem_map.mpr ⟨q, hqt, hqm⟩
      obtain ⟨v, hv⟩ := ih this
      have hne : (m == p.1) = false := beq_eq_false_iff_ne.mpr hm
      exact ⟨v, by simp [List.lookup, hne, hv]⟩

/-- `cutoffDefault` is the literal `0.85`. -/
theorem cutoffDefault_eq : cutoffDefault = 0.85 := by
  rw [cutoffDefault, Rat.mk'_eq_divInt, Rat.divInt_eq_div]
  norm_num

/-- Helper: `fuzzy_correct` is total — the dict indexing after a fuzzy hit
is always in-domain, every other branch returns. -/
theorem fuzzy_correct_total (value : Option String) (mapping : List (String × String))
    (cutoff : ℚ) : ∃ r, fuzzy_correct value mapping cutoff = Except.ok r := by
  cases value with
  | none => exact ⟨none, rfl⟩
  | some v =>
    rw [fuzzy_correct]
    cases hl : List.lookup (normalizeStr v) mapping with
    | some canon => exact ⟨some canon, rfl⟩
    | none =>
      cases hg : getCloseMatches1 (normalizeStr v) (mapping.map Prod.fst) cutoff with
      | none => exact ⟨some v, rfl⟩
      | some m =>
        obtain ⟨canon, hc⟩ := lookup_isSome_of_mem_keys (getCloseMatches1_isBest hg).1
        refine ⟨some canon, ?_⟩
        dsimp only
        rw [hc]

/-- C3: `normalize` returns null exactly on a missing input; on any
other value it is the string pipeline lower-case → strip → remove
non-word non-space characters; a value normalizing to the empty string
is a valid `some ""` key, never conflated with null. -/
theorem normalize_spec :
    (∀ v : Option String, normalize v = none ↔ v = none) ∧
    (∀ s : String, normalize (some s) = some (pyKeepWordAndSpace (pyStrip (pyLower s)))) ∧
    normalize (some " !?. ") = some "" ∧ (some "" : Option String) ≠ none := by
  refine ⟨fun v => ?_, fun s => rfl, by decide, by decide⟩
  cases v <;> simp [normalize]

/-- C3 (witness): the null/non-null split at a concrete value. -/
theorem normalize_spec_witness :
    (normalize (some " Cuddapah! ") = none ↔ (some " Cuddapah! " : Option String) = none) ∧
    normalize (some " Cuddapah! ")
      = some (pyKeepWordAndSpace (pyStrip (pyLower " Cuddapah! "))) :=
  ⟨normalize_spec.1 (some " Cuddapah! "), normalize_spec.2.1 " Cuddapah! "⟩

/-- C4 (counterexample): `correct("Kadapa", district_map)` does not
resolve to `"Ysr Kadapa"` — "kadapa" scores `8/14 ≈ 0.571 < 0.85`
against its closest key "cuddapah", so the value is returned
unchanged. -/
theorem correct_kadapa_not_resolved :
    fuzzy_correct (some "Kadapa") district_map cutoffDefault = Except.ok (some "Kadapa") ∧
    (Except.ok (some "Kadapa") : Except String (Option String)) ≠
      Except.ok (some "Ysr Kadapa") := by
  exact ⟨by decide, by decide⟩

/-- C4 (amended): `correct("Cuddapah ", district_map) = "Ysr Kadapa"`;
the typo `"Cudapah"` still resolves to `"Ysr Kadapa"`; `"Mumbai"` is
below the cutoff against every key and is returned unchanged; and so is
`"Kadapa"`, which is below the cutoff as well. -/
theorem correct_examples :
    fuzzy_correct (some "Cuddapah ") district_map cutoffDefault
      = Except.ok (some "Ysr Kadapa") ∧
    fuzzy_correct (some "Cudapah") district_map cutoffDefault
      = Except.ok (some "Ysr Kadapa") ∧
    fuzzy_correct (some "Mumbai") district_map cutoffDefault
      = Except.ok (some "Mumbai") ∧
    fuzzy_correct (some "Kadapa") district_map cutoffDefault
      = Except.ok (some "Kadapa") := by
  exact ⟨by decide, by decide, by decide, by decide⟩

/-- C5: every seed entry `(original, canonical)` of either dictionary is
corrected to its canonical string, also upper-cased and wrapped in
spaces. -/
theorem seed_entries_roundtrip :
    (∀ p ∈ district_renames,
      fuzzy_correct (some p.1) district_map cutoffDefault = Except.ok (some p.2) ∧
      fuzzy_correct (some (pyUpper p.1)) district_map cutoffDefault = Except.ok (some p.2) ∧
      fuzzy_correct (some (" " ++ p.1 ++ " ")) district_map cutoffDefault
        = Except.ok (some p.2)) ∧
    (∀ p ∈ state_corrections,
      fuzzy_correct (some p.1) state_map cutoffDefault = Except.ok (some p.2) ∧
      fuzzy_correct (some (pyUpper p.1)) state_map cutoffDefault = Except.ok (some p.2) ∧
      fuzzy_correct (some (" " ++ p.1 ++ " ")) state_map cutoffDefault
        = Except.ok (some p.2)) := by
  exact ⟨by decide, by decide⟩

/-- C5 (witness): the first district seed entry, in all three forms. -/
theorem seed_entries_roundtrip_witness :
    ("Cuddapah", "Ysr Kadapa") ∈ district_renames ∧
    fuzzy_correct (some "Cuddapah") district_map cutoffDefault
      = Except.ok (some "Ysr Kadapa") :=
  ⟨by decide, (seed_entries_roundtrip.1 ("Cuddapah", "Ysr Kadapa") (by decide)).1⟩

/-- C8: every canonical string in a dictionary's value list is a fixed
point of the corrector, hence correcting twice equals correcting
once. -/
theorem canonical_fixed_points :
    (∀ v ∈ district_map.map Prod.snd,
      fuzzy_correct (some v) district_map cutoffDefault = Except.ok (some v)) ∧
    (∀ v ∈ state_map.map Prod.snd,
      fuzzy_correct (some v) state_map cutoffDefault = Except.ok (some v)) ∧
    (∀ v ∈ district_map.map Prod.snd, ∀ r,
      fuzzy_correct (some v) district_map cutoffDefault = Except.ok r →
      fuzzy_correct r district_map cutoffDefault = Except.ok r) ∧
    (∀ v ∈ state_map.map Prod.snd, ∀ r,
      fuzzy_correct (some v) state_map cutoffDefault = Except.ok r →
      fuzzy_correct r state_map cutoffDefault = Except.ok r) := by
  have hd : ∀ v ∈ district_map.map Prod.snd,
      fuzzy_correct (some v) district_map cutoffDefault = Except.ok (some v) := by decide
  have hs : ∀ v ∈ state_map.map Prod.snd,
      fuzzy_correct (some v) state_map cutoffDefault = Except.ok (some v) := by decide
  refine ⟨hd, hs, fun v hv r hr => ?_, fun v hv r hr => ?_⟩
  · rw [hd v hv] at hr
    cases hr
    exact hd v hv
  · rw [hs v hv] at hr
    cases hr
    exact hs v hv

/-- C8 (witness): "West Bengal" is canonical and a fixed point (via a
fuzzy hit on the key "westbengal", ratio `20/21 ≥ 0.85`). -/
theorem canonical_fixed_points_witness :
    "West Bengal" ∈ state_map.map Prod.snd ∧
    fuzzy_correct (some "West Bengal") state_map cutoffDefault
      = Except.ok (some "West Bengal") :=
  ⟨by decide, canonical_fixed_points.2.1 "West Bengal" (by decide)⟩

/-- C9: `fuzzy_correct` is a pure function of its inputs: two
evaluations on equal value, dictionary and cutoff — in particular two
runs over the same tie between keys — return the same result. -/
theorem fuzzy_correct_deterministic (v₁ v₂ : Option String)
    (m₁ m₂ : List (String × String)) (c₁ c₂ : ℚ)
    (hv : v₁ = v₂) (hm : m₁ = m₂) (hc : c₁ = c₂) :
    fuzzy_correct v₁ m₁ c₁ = fuzzy_correct v₂ m₂ c₂ := by
  rw [hv, hm, hc]

/-- C9 (witness): two runs on "Kadapa" agree. -/
theorem fuzzy_correct_deterministic_witness :
    fuzzy_correct (some "Kadapa") district_map cutoffDefault
      = fuzzy_correct (some "Kadapa") district_map cutoffDefault :=
  fuzzy_correct_deterministic _ _ _ _ _ _ rfl rfl rfl

/-- C10: on either runtime dictionary (and any value and cutoff),
`fuzzy_correct` never raises: the indexing `mapping[matches[0]]` is
in-domain because candidates come from the dictionary's own keys, and
every other branch returns. -/
theorem fuzzy_correct_never_raises (value : Option String) (cutoff : ℚ) :
    (∃ r, fuzzy_correct value district_map cutoff = Except.ok r) ∧
    (∃ r, fuzzy_correct value state_map cutoff = Except.ok r) :=
  ⟨fuzzy_correct_total value district_map cutoff,
   fuzzy_correct_total value state_map cutoff⟩

/-- C1: the four cases of the corrector, with the dictionary arbitrary
and the cutoff the default `0.85`: a missing value passes through; an
exact normalized-key hit returns its canonical string; otherwise the
single best approximate match at the cutoff (in the sense of
`IsBestMatch`) decides the result; and when no key reaches the cutoff
the original value — not the normalized key — is returned. -/
theorem fuzzy_correct_cases (mapping : List (String × String)) :
    (fuzzy_correct none mapping cutoffDefault = Except.ok none) ∧
    (∀ v canon, List.lookup (normalizeStr v) mapping = some canon →
      fuzzy_correct (some v) mapping cutoffDefault = Except.ok (some canon)) ∧
    (∀ v m, List.lookup (normalizeStr v) mapping = none →
      IsBestMatch cutoffDefault (normalizeStr v) (mapping.map Prod.fst) m →
      ∃ canon, List.lookup m mapping = some canon ∧
        fuzzy_correct (some v) mapping cutoffDefault = Except.ok (some canon)) ∧
    (∀ v, List.lookup (normalizeStr v) mapping = none →
      (∀ x ∈ mapping.map Prod.fst, ratioQ x (normalizeStr v) < cutoffDefault) →
      fuzzy_correct (some v) mapping cutoffDefault = Except.ok (some v)) := by
  refine ⟨rfl, fun v canon hl => ?_, fun v m hl hbest => ?_, fun v hl hlow => ?_⟩
  · rw [fuzzy_correct, hl]
  · have hg := getCloseMatches1_eq_some_of_isBest hbest
    obtain ⟨canon, hc⟩ := lookup_isSome_of_mem_keys hbest.1
    refine ⟨canon, hc, ?_⟩
    rw [fuzzy_correct, hl, hg]
    dsimp only
    rw [hc]
  · have hg : getCloseMatches1 (normalizeStr v) (mapping.map Prod.fst) cutoffDefault
        = none :=
      (getCloseMatches1_none_iff _ _ _).mpr
        (fun x hx hc => absurd hc (not_le.mpr (hlow x hx)))
    rw [fuzzy_correct, hl, hg]

/-- C1 (witness): the exact-hit case at `"Cuddapah"` on the district
dictionary. -/
theorem fuzzy_correct_cases_witness :
    fuzzy_correct (some "Cuddapah") district_map cutoffDefault
      = Except.ok (some "Ysr Kadapa") :=
  (fuzzy_correct_cases district_map).2.1 "Cuddapah" "Ysr Kadapa" (by decide)

/-! ## Row and table update lemmas -/

theorem updateAt_ok_length (f : Option String → Except String (Option String)) :
    ∀ (row : List (Option String)) (i : Nat) (row' : List (Option String)),
      updateAt f i row = Except.ok row' → row'.length = row.length := by
  intro row
  induction row with
  | nil =>
    intro i row' h
    cases i <;> rw [updateAt] at h <;> cases h <;> rfl
  | cons c rest ih =>
    intro i row' h
    cases i with
    | zero =>
      rw [updateAt] at h
      cases hfc : f c with
      | error e => rw [hfc] at h; cases h
      | ok c' =>
        rw [hfc] at h
        cases h
        rfl
    | succ i =>
      rw [updateAt] at h
      cases hrec : updateAt f i rest with
      | error e => rw [hrec] at h; cases h
      | ok rest' =>
        rw [hrec] at h
        cases h
        simpa using ih i rest' hrec

theorem updateAt_ok_get_ne (f : Option String → Except String (Option String)) :
    ∀ (row : List (Option String)) (i : Nat) (row' : List (Option String)) (j : Nat),
      updateAt f i row = Except.ok row' → j ≠ i → row'.get? j = row.get? j := by
  intro row
  induction row with
  | nil =>
    intro i row' j h _
    cases i <;> rw [updateAt] at h <;> cases h <;> rfl
  | cons c rest ih =>
    intro i row' j h hj
    cases i with
    | zero =>
      rw [updateAt] at h
      cases hfc : f c with
      | error e => rw [hfc] at h; cases h
      | ok c' =>
        rw [hfc] at h
        cases h
        cases j with
        | zero => exact absurd rfl hj
        | succ j => rfl
    | succ i =>
      rw [updateAt] at h
      cases hrec : updateAt f i rest with
      | error e => rw [hrec] at h; cases h
      | ok rest' =>
        rw [hrec] at h
        cases h
        cases j with
        | zero => rfl
        | succ j => simpa using ih i rest' j hrec (fun hji => hj (by rw [hji]))

theorem updateAt_total (f : Option String → Except String (Option String))
    (hf : ∀ c, ∃ c', f c = Except.ok c') :
    ∀ (i : Nat) (row : List (Option String)),
      ∃ row', updateAt f i row = Except.ok row' := by
  intro i row
  induction row generalizing i with
  | nil => cases i <;> exact ⟨[], rfl⟩
  | cons c rest ih =>
    cases i with
    | zero =>
      obtain ⟨c', hc'⟩ := hf c
      exact ⟨c' :: rest, by rw [updateAt, hc']; rfl⟩
    | succ i =>
      obtain ⟨rest', hrest'⟩ := ih i
      exact ⟨c :: rest', by rw [updateAt, hrest']; rfl⟩

theorem mapExc_ok_length (g : List (Option String) → Except String (List (Option String))) :
    ∀ (l l' : List (List (Option String))),
      mapExc g l = Except.ok l' → l'.length = l.length := by
  intro l
  induction l with
  | nil =>
    intro l' h
    rw [mapExc] at h
    cases h
    rfl
  | cons r rs ih =>
    intro l' h
    rw [mapExc] at h
    cases hr : g r with
    | error e => rw [hr] at h; cases h
    | ok r' =>
      rw [hr] at h
      cases hrs : mapExc g rs with
      | error e => rw [hrs] at h; cases h
      | ok rs' =>
        rw [hrs] at h
        cases h
        simpa using ih rs' hrs

theorem mapExc_ok_get (g : List (Option String) → Except String (List (Option String))) :
    ∀ (l l' : List (List (Option String))),
      mapExc g l = Except.ok l' →
      ∀ (r : Nat) (a : List (Option String)), l.get? r = some a →
        ∃ b, l'.get? r = some b ∧ g a = Except.ok b := by
  intro l
  induction l with
  | nil =>
    intro l' _ r a ha
    simp at ha
  | cons x xs ih =>
    intro l' h r a ha
    rw [mapExc] at h
    cases hx : g x with
    | error e => rw [hx] at h; cases h
    | ok x' =>
      rw [hx] at h
      cases hxs : mapExc g xs with
      | error e => rw [hxs] at h; cases h
      | ok xs' =>
        rw [hxs] at h
        cases h
        cases r with
        | zero =>
          cases ha
          exact ⟨x', rfl, hx⟩
        | succ r => simpa using ih xs' hxs r a (by simpa using ha)

theorem mapExc_total (g : List (Option String) → Except String (List (Option String)))
    (hg : ∀ a, ∃ b, g a = Except.ok b) :
    ∀ l, ∃ l', mapExc g l = Except.ok l' := by
  intro l
  induction l with
  | nil => exact ⟨[], rfl⟩
  | cons x xs ih =>
    obtain ⟨x', hx⟩ := hg x
    obtain ⟨xs', hxs⟩ := ih
    exact ⟨x' :: xs', by rw [mapExc, hx, hxs]; rfl⟩

theorem stateCols_eq_nil_iff (cols : List String) :
    stateCols cols = [] ↔ ∀ c ∈ cols, strContains "state" (pyLower c) = false := by
  rw [stateCols, List.filter_eq_nil_iff]
  constructor <;> intro h c hc
  · exact Bool.not_eq_true _ ▸ (by simpa using h c hc)
  · simp [h c hc]

theorem districtCols_eq_nil_iff (cols : List String) :
    districtCols cols = [] ↔ ∀ c ∈ cols, strContains "district" (pyLower c) = false := by
  rw [districtCols, List.filter_eq_nil_iff]
  constructor <;> intro h c hc
  · exact Bool.not_eq_true _ ▸ (by simpa using h c hc)
  · simp [h c hc]

/-- Helper: when both columns are located, `clean_file` runs both column
substitutions to completion and returns the rewritten table. -/
theorem clean_file_ok_branch (df : Table) (sc : String) (st : List String)
    (dc : String) (dt : List String)
    (hS : stateCols df.cols = sc :: st) (hD : districtCols df.cols = dc :: dt) :
    ∃ rows1 rows2,
      mapExc (updateAt (fun x => fuzzy_correct x state_map cutoffDefault)
        (stateIdx df.cols)) df.rows = Except.ok rows1 ∧
      mapExc (updateAt (fun x => fuzzy_correct x district_map cutoffDefault)
        (districtIdx df.cols)) rows1 = Except.ok rows2 ∧
      clean_file df = Except.ok ⟨df.cols, rows2⟩ := by
  obtain ⟨rows1, h1⟩ := mapExc_total _
    (fun row => updateAt_total _
      (fun c => fuzzy_correct_total c state_map cutoffDefault) (stateIdx df.cols) row)
    df.rows
  obtain ⟨rows2, h2⟩ := mapExc_total _
    (fun row => updateAt_total _
      (fun c => fuzzy_correct_total c district_map cutoffDefault) (districtIdx df.cols) row)
    rows1
  refine ⟨rows1, rows2, h1, h2, ?_⟩
  rw [clean_file, hS, hD]
  dsimp only
  rw [h1]
  dsimp only [Bind.bind, Except.bind]
  rw [h2]

/-- C2 (counterexample): a table missing BOTH columns fails with the
State message, not the District message the claim requires for every
table with no district-matching column. -/
theorem clean_file_both_missing :
    (∀ c ∈ ["Population"], strContains "district" (pyLower c) = false) ∧
    clean_file ⟨["Population"], []⟩ = Except.error "State column not found" ∧
    clean_file ⟨["Population"], []⟩ ≠ Except.error "District column not found" := by
  exact ⟨by decide, by decide, by decide⟩

/-- C2 (amended): columns are scanned case-insensitively for the
substrings "state" and "district"; the first match of each in column
order is taken (`["STATE_NAME", "District_Code", "Population"]` resolves
to `STATE_NAME` and `District_Code`); the State error occurs iff no
state-matching column exists, and the District error occurs iff a
state-matching column exists but no district-matching one does (when
both are missing the State check, which runs first, raises). -/
theorem clean_file_column_location (df : Table) :
    (clean_file df = Except.error "State column not found" ↔
      ∀ c ∈ df.cols, strContains "state" (pyLower c) = false) ∧
    (clean_file df = Except.error "District column not found" ↔
      ((∃ c ∈ df.cols, strContains "state" (pyLower c) = true) ∧
        ∀ c ∈ df.cols, strContains "district" (pyLower c) = false)) ∧
    stateCols ["STATE_NAME", "District_Code", "Population"] = ["STATE_NAME"] ∧
    districtCols ["STATE_NAME", "District_Code", "Population"] = ["District_Code"] ∧
    stateIdx ["STATE_NAME", "District_Code", "Population"] = 0 ∧
    districtIdx ["STATE_NAME", "District_Code", "Population"] = 1 := by
  refine ⟨?_, ?_, by decide, by decide, by decide, by decide⟩
  · cases hS : stateCols df.cols with
    | nil =>
      rw [clean_file, hS]
      simp only [eq_self_iff_true, true_iff]
      exact (stateCols_eq_nil_iff df.cols).mp hS
    | cons sc st =>
      have hsc : sc ∈ stateCols df.cols := hS ▸ List.mem_cons_self sc st
      obtain ⟨hscMem, hscTrue⟩ := List.mem_filter.mp hsc
      constructor
      · intro h
        exfalso
        cases hD : districtCols df.cols with
        | nil =>
          rw [clean_file, hS, hD] at h
          exact absurd (Except.error.inj h) (by decide)
        | cons dc dt =>
          obtain ⟨rows1, rows2, -, -, hok⟩ := clean_file_ok_branch df sc st dc dt hS hD
          rw [hok] at h
          cases h
      · intro h
        rw [h sc hscMem] at hscTrue
        cases hscTrue
  · cases hS : stateCols df.cols with
    | nil =>
      rw [clean_file, hS]
      constructor
      · intro h
        exact absurd (Except.error.inj h) (by decide)
      · rintro ⟨⟨c, hc, hcT⟩, -⟩
        rw [(stateCols_eq_nil_iff df.cols).mp hS c hc] at hcT
        cases hcT
    | cons sc st =>
      have hsc : sc ∈ stateCols df.cols := hS ▸ List.mem_cons_self sc st
      obtain ⟨hscMem, hscTrue⟩ := List.mem_filter.mp hsc
      cases hD : districtCols df.cols with
      | nil =>
        rw [clean_file, hS, hD]
        simp only [eq_self_iff_true, true_iff]
        exact ⟨⟨sc, hscMem, hscTrue⟩, (districtCols_eq_nil_iff df.cols).mp hD⟩
      | cons dc dt =>
        have hdc : dc ∈ districtCols df.cols := hD ▸ List.mem_cons_self dc dt
        obtain ⟨hdcMem, hdcTrue⟩ := List.mem_filter.mp hdc
        obtain ⟨rows1, rows2, -, -, hok⟩ := clean_file_ok_branch df sc st dc dt hS hD
        rw [hok]
        constructor
        · intro h
          cases h
        · rintro ⟨-, hnone⟩
          rw [hnone dc hdcMem] at hdcTrue
          cases hdcTrue

/-- C2 (witness): on `["STATE_NAME", "District_Code", "Population"]`
with one data row, neither missing-column error can occur. -/
theorem clean_file_column_location_witness :
    ¬ (clean_file ⟨["STATE_NAME", "District_Code", "Population"], []⟩
        = Except.error "State column not found") :=
  fun h =>
    absurd ((clean_file_column_location
        ⟨["STATE_NAME", "District_Code", "Population"], []⟩).1.mp h "STATE_NAME"
        (by decide)) (by decide)

/-- C6: a successful clean preserves the column list, the row count,
each row's length, and every cell outside the located state and district
columns. -/
theorem clean_file_frame (df t : Table) (h : clean_file df = Except.ok t) :
    t.cols = df.cols ∧
    t.rows.length = df.rows.length ∧
    (∀ r, (t.rows.get? r).map List.length = (df.rows.get? r).map List.length) ∧
    (∀ r j, j ≠ stateIdx df.cols → j ≠ districtIdx df.cols →
      cellAt t r j = cellAt df r j) := by
  cases hS : stateCols df.cols with
  | nil =>
    rw [clean_file, hS] at h
    cases h
  | cons sc st =>
    cases hD : districtCols df.cols with
    | nil =>
      rw [clean_file, hS, hD] at h
      cases h
    | cons dc dt =>
      obtain ⟨rows1, rows2, h1, h2, hok⟩ := clean_file_ok_branch df sc st dc dt hS hD
      rw [hok] at h
      cases h
      refine ⟨rfl, ?_, fun r => ?_, fun r j hjs hjd => ?_⟩
      · exact (mapExc_ok_length _ _ _ h2).trans (mapExc_ok_length _ _ _ h1)
      · cases hr : df.rows.get? r with
        | none =>
          have hlen : df.rows.length ≤ r := List.get?_eq_none.mp hr
          have : rows2.get? r = none := List.get?_eq_none.mpr (by
            rw [mapExc_ok_length _ _ _ h2, mapExc_ok_length _ _ _ h1]
            exact hlen)
          rw [this]
        | some row =>
          obtain ⟨row1, hg1, hu1⟩ := mapExc_ok_get _ _ _ h1 r row hr
          obtain ⟨row2, hg2, hu2⟩ := mapExc_ok_get _ _ _ h2 r row1 hg1
          rw [hg2]
          simp [updateAt_ok_length _ _ _ _ hu2, updateAt_ok_length _ _ _ _ hu1]
      · rw [cellAt, cellAt]
        cases hr : df.rows.get? r with
        | none =>
          have hlen : df.rows.length ≤ r := List.get?_eq_none.mp hr
          have : rows2.get? r = none := List.get?_eq_none.mpr (by
            rw [mapExc_ok_length _ _ _ h2, mapExc_ok_length _ _ _ h1]
            exact hlen)
          rw [this]
        | some row =>
          obtain ⟨row1, hg1, hu1⟩ := mapExc_ok_get _ _ _ h1 r row hr
          obtain ⟨row2, hg2, hu2⟩ := mapExc_ok_get _ _ _ h2 r row1 hg1
          rw [hg2]
          dsimp only [Option.bind]
          rw [updateAt_ok_get_ne _ _ _ _ _ hu2 hjd, updateAt_ok_get_ne _ _ _ _ _ hu1 hjs]

/-- C6 (witness): the `Population` cell is untouched by a concrete
clean. -/
theorem clean_file_frame_witness :
    cellAt ⟨["STATE_NAME", "District_Code", "Population"],
      [[some "Odisha", some "Ysr Kadapa", some "123"]]⟩ 0 2
    = cellAt ⟨["STATE_NAME", "District_Code", "Population"],
      [[some "Orissa", some "Cuddapah", some "123"]]⟩ 0 2 :=
  (clean_file_frame
    ⟨["STATE_NAME", "District_Code", "Population"],
      [[some "Orissa", some "Cuddapah", some "123"]]⟩
    ⟨["STATE_NAME", "District_Code", "Population"],
      [[some "Odisha", some "Ysr Kadapa", some "123"]]⟩
    (by decide)).2.2.2 0 2 (by decide) (by decide)

/-- C7: no partial success — `clean_file` either raises one of the two
missing-column errors before producing any output table, or succeeds
with a table in which every row went through the state-column
substitution and then the district-column substitution. -/
theorem clean_file_all_or_nothing (df : Table) :
    (∃ e, clean_file df = Except.error e ∧
      (e = "State column not found" ∨ e = "District column not found")) ∨
    (∃ t, clean_file df = Except.ok t ∧
      ∀ r row, df.rows.get? r = some row →
        ∃ row1 row2,
          updateAt (fun x => fuzzy_correct x state_map cutoffDefault)
            (stateIdx df.cols) row = Except.ok row1 ∧
          updateAt (fun x => fuzzy_correct x district_map cutoffDefault)
            (districtIdx df.cols) row1 = Except.ok row2 ∧
          t.rows.get? r = some row2) := by
  cases hS : stateCols df.cols with
  | nil =>
    refine Or.inl ⟨"State column not found", ?_, Or.inl rfl⟩
    rw [clean_file, hS]
  | cons sc st =>
    cases hD : districtCols df.cols with
    | nil =>
      refine Or.inl ⟨"District column not found", ?_, Or.inr rfl⟩
      rw [clean_file, hS, hD]
    | cons dc dt =>
      obtain ⟨rows1, rows2, h1, h2, hok⟩ := clean_file_ok_branch df sc st dc dt hS hD
      refine Or.inr ⟨⟨df.cols, rows2⟩, hok, fun r row hr => ?_⟩
      obtain ⟨row1, hg1, hu1⟩ := mapExc_ok_get _ _ _ h1 r row hr
      obtain ⟨row2, hg2, hu2⟩ := mapExc_ok_get _ _ _ h2 r row1 hg1
      exact ⟨row1, row2, hu1, hu2, hg2⟩

/-- C7 (witness): the success side at a concrete one-row table. -/
theorem clean_file_all_or_nothing_witness :
    (∃ e, clean_file ⟨["State", "District"], [[some "Orissa", some "Hugli"]]⟩
        = Except.error e ∧
      (e = "State column not found" ∨ e = "District column not found")) ∨
    (∃ t, clean_file ⟨["State", "District"], [[some "Orissa", some "Hugli"]]⟩
        = Except.ok t ∧
      ∀ r row,
        (Table.mk ["State", "District"] [[some "Orissa", some "Hugli"]]).rows.get? r
          = some row →
        ∃ row1 row2,
          updateAt (fun x => fuzzy_correct x state_map cutoffDefault)
            (stateIdx ["State", "District"]) row = Except.ok row1 ∧
          updateAt (fun x => fuzzy_correct x district_map cutoffDefault)
            (districtIdx ["State", "District"]) row1 = Except.ok row2 ∧
          t.rows.get? r = some row2) :=
  clean_file_all_or_nothing ⟨["State", "District"], [[some "Orissa", some "Hugli"]]⟩

end App
